import Mathlib

set_option autoImplicit false

namespace BeerScraper

/-- Python strings are modelled as `List Char`. -/
abbrev Str := List Char

/-! ### Python string primitives -/

/-- Whitespace recognised by Python str.strip and str.split (ASCII subset). -/
def isPyWS (c : Char) : Bool :=
  c == ' ' || c == '\t' || c == '\n' || c == '\r' || c == '\x0b' || c == '\x0c'

/-- Python str.strip(): remove leading and trailing whitespace. -/
def pystrip (s : Str) : Str :=
  ((s.dropWhile isPyWS).reverse.dropWhile isPyWS).reverse

/-- Python str.split() with no argument: maximal runs of non-whitespace
characters, in order, with no empty pieces. -/
def splitWS : Str → List Str
  | [] => []
  | c :: cs =>
    if isPyWS c then splitWS cs
    else
      match cs with
      | [] => [[c]]
      | d :: _ =>
        if isPyWS d then [c] :: splitWS cs
        else
          match splitWS cs with
          | h :: t => (c :: h) :: t
          | [] => [[c]]

/-- Python str.lower(); `Char.toLower` covers the ASCII range, which is all the
scheme detection and link-text comparison in the source rely on. -/
def lowerStr (s : Str) : Str := s.map Char.toLower

/-- Splits a list at the first occurrence of `c`: Python `s.split(c, 1)` when
`c` occurs, `none` when it does not. -/
def splitOnce (c : Char) : Str → Option (Str × Str)
  | [] => none
  | x :: xs =>
    if x = c then some ([], xs)
    else
      match splitOnce c xs with
      | some p => some (x :: p.1, p.2)
      | none => none

/-- Python str.split(sep) for a one-character separator: every occurrence
splits, empty pieces are kept, and the empty string yields one empty piece. -/
def splitAll (c : Char) : Str → List Str
  | [] => [[]]
  | x :: xs =>
    if x = c then [] :: splitAll c xs
    else
      match splitAll c xs with
      | h :: t => (x :: h) :: t
      | [] => [[x]]

/-- Python sep.join for a one-character separator. -/
def joinSep (c : Char) : List Str → Str
  | [] => []
  | [s] => s
  | s :: rest => s ++ c :: joinSep c rest

/-! ### urllib.parse model (CPython 3.11)

`find_next_page` resolves every candidate target with `urllib.parse.urljoin`;
the functions below model `urlsplit`, `urlparse`, `urlunsplit`, `urlunparse`
and `urljoin` for `str` inputs with `allow_fragments=True`. -/

/-- Leading C0-control-or-space characters stripped by urlsplit (WHATWG rule). -/
def isC0Space (c : Char) : Bool := c.toNat ≤ 32

/-- Tab, CR and LF are removed from URLs by urlsplit (WHATWG rule). -/
def isUnsafeUrlByte (c : Char) : Bool := c == '\t' || c == '\r' || c == '\n'

/-- urlsplit's preprocessing of the url argument: lstrip of C0-or-space, then
removal of tab, CR, LF everywhere. -/
def sanitizeUrl (u : Str) : Str :=
  (u.dropWhile isC0Space).filter (fun c => !isUnsafeUrlByte c)

/-- urlsplit's preprocessing of the default-scheme argument: strip on both
sides, then removal of tab, CR, LF. -/
def sanitizeSchemeArg (s : Str) : Str :=
  (((s.dropWhile isC0Space).reverse.dropWhile isC0Space).reverse).filter
    (fun c => !isUnsafeUrlByte c)

/-- ASCII letter (Python url[0].isascii() and url[0].isalpha()). -/
def isAsciiAlphaCh (c : Char) : Bool :=
  (97 ≤ c.toNat && c.toNat ≤ 122) || (65 ≤ c.toNat && c.toNat ≤ 90)

/-- Membership in urllib's scheme_chars: ASCII letters, digits, plus, dash,
dot. -/
def isSchemeChar (c : Char) : Bool :=
  isAsciiAlphaCh c || (48 ≤ c.toNat && c.toNat ≤ 57) || c == '+' || c == '-' || c == '.'

/-- Scheme detection step of urlsplit: the text before the first colon becomes
the scheme (lowercased) when it is nonempty, starts with an ASCII letter and
consists of scheme characters only; otherwise the default scheme applies and
the url is left whole. -/
def parseScheme (url : Str) (d : Str) : Str × Str :=
  match splitOnce ':' url with
  | some p =>
    if p.1 ≠ [] ∧ isAsciiAlphaCh (p.1.headD '0') = true ∧ p.1.all isSchemeChar = true
    then (lowerStr p.1, p.2)
    else (d, url)
  | none => (d, url)

/-- Characters ending the netloc part (urllib's _splitnetloc delimiters). -/
def netlocDelim (c : Char) : Bool := c == '/' || c == '?' || c == '#'

/-- The five components scheme, netloc, path, query, fragment. -/
structure SplitResult where
  scheme : Str
  netloc : Str
  path : Str
  query : Str
  fragment : Str
deriving DecidableEq

/-- urllib.parse.urlsplit for str input with allow_fragments=True.  The
branches raising ValueError on malformed bracketed netlocs are omitted: they
raise instead of returning a value. -/
def urlsplit (url0 d : Str) : SplitResult :=
  let sp := parseScheme (sanitizeUrl url0) (sanitizeSchemeArg d)
  let nl :=
    if sp.2.take 2 = ['/', '/'] then
      ((sp.2.drop 2).takeWhile (fun c => !netlocDelim c),
        (sp.2.drop 2).dropWhile (fun c => !netlocDelim c))
    else ([], sp.2)
  let fr :=
    match splitOnce '#' nl.2 with
    | some p => p
    | none => (nl.2, [])
  let qr :=
    match splitOnce '?' fr.1 with
    | some p => p
    | none => (fr.1, [])
  ⟨sp.1, nl.1, qr.1, qr.2, fr.2⟩

/-- urllib's _splitparams: split params off the last path segment. -/
def splitparams (u : Str) : Str × Str :=
  if u.contains '/' then
    let lastSeg := (u.reverse.takeWhile (fun c => !(c == '/'))).reverse
    let pre := u.take (u.length - lastSeg.length)
    match splitOnce ';' lastSeg with
    | some p => (pre ++ p.1, p.2)
    | none => (u, [])
  else
    match splitOnce ';' u with
    | some p => p
    | none => (u, [])

/-- The six components of urllib.parse.urlparse. -/
structure ParseResult where
  scheme : Str
  netloc : Str
  path : Str
  params : Str
  query : Str
  fragment : Str
deriving DecidableEq

/-- urllib.parse.uses_relative. -/
def usesRelative : List Str :=
  (["", "ftp", "http", "gopher", "nntp", "imap", "wais", "file", "https",
    "shttp", "mms", "prospero", "rtsp", "rtsps", "rtspu", "sftp", "svn",
    "svn+ssh", "ws", "wss"]).map String.toList

/-- urllib.parse.uses_netloc. -/
def usesNetloc : List Str :=
  (["", "ftp", "http", "gopher", "nntp", "telnet", "imap", "wais", "file",
    "mms", "https", "shttp", "snews", "prospero", "rtsp", "rtsps", "rtspu",
    "rsync", "svn", "svn+ssh", "sftp", "nfs", "git", "git+ssh", "ws",
    "wss"]).map String.toList

/-- urllib.parse.uses_params. -/
def usesParams : List Str :=
  (["", "ftp", "hdl", "prospero", "http", "imap", "https", "shttp", "rtsp",
    "rtsps", "rtspu", "sip", "sips", "mms", "sftp", "tel"]).map String.toList

/-- urllib.parse.urlparse: urlsplit plus params splitting. -/
def urlparse (url d : Str) : ParseResult :=
  let s := urlsplit url d
  if usesParams.contains s.scheme && s.path.contains ';' then
    let pr := splitparams s.path
    ⟨s.scheme, s.netloc, pr.1, pr.2, s.query, s.fragment⟩
  else
    ⟨s.scheme, s.netloc, s.path, [], s.query, s.fragment⟩

/-- urllib.parse.urlunsplit. -/
def urlunsplit (scheme netloc path query fragment : Str) : Str :=
  let u1 :=
    if netloc ≠ [] ∨ (scheme ≠ [] ∧ usesNetloc.contains scheme = true ∧ path.take 2 ≠ ['/', '/'])
    then
      let p := if path ≠ [] ∧ path.take 1 ≠ ['/'] then '/' :: path else path
      '/' :: '/' :: (netloc ++ p)
    else path
  let u2 := if scheme ≠ [] then scheme ++ ':' :: u1 else u1
  let u3 := if query ≠ [] then u2 ++ '?' :: query else u2
  if fragment ≠ [] then u3 ++ '#' :: fragment else u3

/-- urllib.parse.urlunparse. -/
def urlunparse (p : ParseResult) : Str :=
  let u := if p.params ≠ [] then p.path ++ ';' :: p.params else p.path
  urlunsplit p.scheme p.netloc u p.query p.fragment

/-- The resolved_path loop of urljoin; the accumulator is kept reversed, so
Python's append is cons and its pop (with IndexError ignored) is `drop 1`. -/
def resolveSegs (acc : List Str) : List Str → List Str
  | [] => acc
  | seg :: rest =>
    if seg = ['.', '.'] then resolveSegs (acc.drop 1) rest
    else if seg = ['.'] then resolveSegs acc rest
    else resolveSegs (seg :: acc) rest

/-- Python's `segments[1:-1] = filter(None, segments[1:-1])`: drop empty
pieces, keeping the first and last elements. -/
def filterMiddle : List Str → List Str
  | [] => []
  | [s] => [s]
  | s :: rest =>
    s :: ((rest.dropLast.filter (fun t => t ≠ [])) ++ [rest.getLastD []])

/-- The relative-path merge of urljoin: base path, relative path and params
emptiness produce the resolved path string. -/
def joinResolvedPath (bpath rpath : Str) : Str :=
  let baseParts0 := splitAll '/' bpath
  let baseParts := if baseParts0.getLastD [] ≠ [] then baseParts0.dropLast else baseParts0
  let segments :=
    if rpath.take 1 = ['/'] then splitAll '/' rpath
    else filterMiddle (baseParts ++ splitAll '/' rpath)
  let resolved0 := (resolveSegs [] segments).reverse
  let resolved :=
    if segments.getLastD [] = ['.'] ∨ segments.getLastD [] = ['.', '.']
    then resolved0 ++ [[]] else resolved0
  let joined := joinSep '/' resolved
  if joined = [] then ['/'] else joined

/-- The body of urljoin after both urlparse calls: `b` is the parsed base,
`r` the parsed url (with the base's scheme as default), `url` the raw url. -/
def urljoinCore (b r : ParseResult) (url : Str) : Str :=
  if r.scheme ≠ b.scheme ∨ ¬(usesRelative.contains r.scheme = true) then url
  else if usesNetloc.contains r.scheme = true ∧ r.netloc ≠ [] then
    urlunparse ⟨r.scheme, r.netloc, r.path, r.params, r.query, r.fragment⟩
  else if r.path = [] ∧ r.params = [] then
    urlunparse ⟨r.scheme,
      (if usesNetloc.contains r.scheme = true then b.netloc else r.netloc),
      b.path, b.params, (if r.query = [] then b.query else r.query), r.fragment⟩
  else
    urlunparse ⟨r.scheme,
      (if usesNetloc.contains r.scheme = true then b.netloc else r.netloc),
      joinResolvedPath b.path r.path, r.params, r.query, r.fragment⟩

/-- urllib.parse.urljoin (CPython 3.11) for str inputs. -/
def urljoin (base url : Str) : Str :=
  if base = [] then url
  else if url = [] then base
  else urljoinCore (urlparse base []) (urlparse url (urlparse base []).scheme) url

/-! ### Markup model (BeautifulSoup)

A parsed page is a tree of text nodes and elements.  bs4's multi-valued
attributes (class, rel) are kept as raw strings and tokenised at match time,
which is observationally the same for the queries the scraper makes. -/

/-- A markup node: a text node, or an element with tag name, attributes and
children. -/
inductive Node where
  | text : Str → Node
  | elem : Str → List (Str × Str) → List Node → Node

mutual

/-- The descendants of a node, excluding the node itself, in document order
(bs4 Tag.descendants). -/
def descendants : Node → List Node
  | .text _ => []
  | .elem _ _ cs => descList cs

/-- Each child followed by its own descendants. -/
def descList : List Node → List Node
  | [] => []
  | c :: cs => c :: descendants c ++ descList cs

end

mutual

/-- The text of all descendant-or-self text nodes, in document order (bs4
strings). -/
def textFragments : Node → List Str
  | .text s => [s]
  | .elem _ _ cs => textFragList cs

/-- Text fragments of a list of children, in order. -/
def textFragList : List Node → List Str
  | [] => []
  | c :: cs => textFragments c ++ textFragList cs

end

/-- bs4 Tag.get: the value of the first attribute with the given name, None
when absent. -/
def getAttr (n : Node) (key : Str) : Option Str :=
  match n with
  | .text _ => none
  | .elem _ attrs _ => attrs.lookup key

/-- bs4 name filter: an element with the given tag name. -/
def tagIs (t : Str) (n : Node) : Bool :=
  match n with
  | .elem name _ _ => name == t
  | .text _ => false

/-- bs4 matching of a multi-valued attribute (class, rel): the sought value
must be one of the whitespace-separated tokens of the attribute's value. -/
def attrHasToken (key tok : Str) (n : Node) : Bool :=
  match getAttr n key with
  | some v => (splitWS v).contains tok
  | none => false

/-- bs4 find_all: all descendants satisfying the predicate, in document
order. -/
def findAllP (p : Node → Bool) (n : Node) : List Node := (descendants n).filter p

/-- bs4 find: the first descendant satisfying the predicate, None when there
is none. -/
def findP (p : Node → Bool) (n : Node) : Option Node := (findAllP p n).head?

/-- One step of bs4 stripped_strings: strip the fragment, drop it when the
result is empty. -/
def stripOrNone (s : Str) : Option Str :=
  if pystrip s = [] then none else some (pystrip s)

/-- bs4 stripped_strings: the stripped, nonempty text fragments in document
order. -/
def strippedStrings (n : Node) : List Str := (textFragments n).filterMap stripOrNone

/-- bs4 get_text(strip=True): the stripped fragments joined with the empty
separator. -/
def getTextStrip (n : Node) : Str := (strippedStrings n).flatten

/-! ### The scraper (src/homebrew_recipe_scraper.py) -/

/-- A recipe record: the dict built by extract_recipe. -/
structure Recipe where
  title : Str
  author : Str
  date : Str
  ingredients : List Str
  instructions : List Str
deriving DecidableEq

def recipeTitleC : Str := ("recipe-title").toList
def recipeAuthorC : Str := ("recipe-author").toList
def recipeDateC : Str := ("recipe-date").toList
def recipeIngrC : Str := ("recipe-ingredients").toList
def recipeInstrC : Str := ("recipe-instructions").toList
def recipePostC : Str := ("recipe-post").toList
def classC : Str := ("class").toList
def relC : Str := ("rel").toList
def hrefC : Str := ("href").toList
def aTagC : Str := ("a").toList
def divTagC : Str := ("div").toList
def nextC : Str := ("next").toList
def moreC : Str := ("more").toList
def nextPageC : Str := ("next-page").toList

/-- post.find("div", class_=cls): a div whose class attribute contains cls as
a token. -/
def divWithClass (cls : Str) (n : Node) : Bool :=
  tagIs divTagC n && attrHasToken classC cls n

/-- extract_recipe, lines 56-96.  The five finds; if any yields None the post
is incomplete (bs4 Tags define a truth value of True, so the source's
truthiness test is exactly a None test); otherwise the record is built with
get_text(strip=True) for the text fields and stripped_strings for the list
fields.  The try/except wrapper is modelled by extractCaughtF below. -/
def extract_recipe (post : Node) : Option Recipe :=
  match findP (divWithClass recipeTitleC) post, findP (divWithClass recipeAuthorC) post,
      findP (divWithClass recipeDateC) post, findP (divWithClass recipeIngrC) post,
      findP (divWithClass recipeInstrC) post with
  | some t, some a, some d, some ing, some ins =>
    some ⟨getTextStrip t, getTextStrip a, getTextStrip d,
      strippedStrings ing, strippedStrings ins⟩
  | _, _, _, _, _ => none

/-- The guard `if link and link.get("href")`: a found Tag is always truthy and
a string is truthy iff nonempty, so the guard passes exactly when the link was
found, has an href, and the href is nonempty. -/
def hrefIfTruthy (l : Option Node) : Option Str :=
  match l with
  | some n =>
    match getAttr n hrefC with
    | some v => if v = [] then none else some v
    | none => none
  | none => none

/-- soup.find("a", rel="next"). -/
def isNextRelA (n : Node) : Bool := tagIs aTagC n && attrHasToken relC nextC n

/-- soup.find("a", class_="next-page"). -/
def isNextPageClassA (n : Node) : Bool := tagIs aTagC n && attrHasToken classC nextPageC n

/-- The third heuristic's loop over soup.find_all("a"): return on the first
link whose stripped, lowercased text equals "next" or "more" and whose href is
present and nonempty; any other link is passed over. -/
def nextByText (base_url : Str) : List Node → Option Str
  | [] => none
  | a :: rest =>
    if lowerStr (getTextStrip a) = nextC ∨ lowerStr (getTextStrip a) = moreC then
      match getAttr a hrefC with
      | some h => if h ≠ [] then some (urljoin base_url h) else nextByText base_url rest
      | none => nextByText base_url rest
    else nextByText base_url rest

/-- find_next_page, lines 101-123: rel="next" first, then class "next-page",
then the literal-text loop; each candidate href is resolved with urljoin
against the current page's url. -/
def find_next_page (soup : Node) (base_url : Str) : Option Str :=
  match hrefIfTruthy (findP isNextRelA soup) with
  | some h => some (urljoin base_url h)
  | none =>
    match hrefIfTruthy (findP isNextPageClassA soup) with
    | some h => some (urljoin base_url h)
    | none => nextByText base_url (findAllP (tagIs aTagC) soup)

/-! ### Fetcher model -/

def REQUEST_TIMEOUT : Nat := 10
def RETRY_DELAY : Nat := 3
def MAX_RETRIES : Nat := 3

/-- Observable events of fetch_url: a GET attempt with its 1-based number, and
a sleep of the given duration between failed attempts. -/
inductive FetchEv where
  | attempt : Nat → FetchEv
  | sleep : Nat → FetchEv
deriving DecidableEq

def isAttemptEv : FetchEv → Bool
  | .attempt _ => true
  | .sleep _ => false

/-- The retry loop of fetch_url over the remaining attempt numbers.  `get n`
is the outcome of the nth GET: some content on success, none on any
requests.RequestException (transport error, timeout, or a non-2xx status via
raise_for_status).  Returns the result with the observable event trace. -/
def fetchGo {α : Type} (get : Nat → Option α) : List Nat → Option α × List FetchEv
  | [] => (none, [])
  | attempt :: rest =>
    match get attempt with
    | some r => (some r, [FetchEv.attempt attempt])
    | none =>
      if attempt < MAX_RETRIES then
        let res := fetchGo get rest
        (res.1, FetchEv.attempt attempt :: FetchEv.sleep RETRY_DELAY :: res.2)
      else (none, [FetchEv.attempt attempt])

/-- fetch_url, lines 33-51: `for attempt in range(1, MAX_RETRIES + 1)`. -/
def fetch_url {α : Type} (get : Nat → Option α) : Option α × List FetchEv :=
  fetchGo get (List.range' 1 MAX_RETRIES)

/-! ### Pagination driver model -/

/-- The network and parser: for a location and a 1-based attempt number, the
parsed page (BeautifulSoup of the response content) when that GET succeeds,
none when it fails.  html.parser never raises, so fetch-and-parse collapses
into one oracle. -/
def World : Type := Str → Nat → Option Node

/-- requests mounts connection adapters only for the "http://" and "https://"
prefixes (compared case-insensitively), so a GET of any other location raises
a RequestException and can never succeed. -/
def isHttpUrl (u : Str) : Bool :=
  ((lowerStr u).take 7 == ("http://").toList) || ((lowerStr u).take 8 == ("https://").toList)

/-- One GET on the shared session: the world's answer, gated by the scheme
restriction of requests. -/
def sessionGet (w : World) (url : Str) : Nat → Option Node := fun attempt =>
  if isHttpUrl url then w url attempt else none

/-- fetch_url as scrape_recipes calls it, keeping the response. -/
def fetchPage (w : World) (url : Str) : Option Node :=
  (fetch_url (sessionGet w url)).1

/-- soup.find_all("div", class_="recipe-post"). -/
def pagePosts (soup : Node) : List Node := findAllP (divWithClass recipePostC) soup

/-- The page's per-post loop: append each record that is not None (the dict
always has five keys, so it is truthy exactly when it is not None). -/
def pageRecipes (soup : Node) : List Recipe := (pagePosts soup).filterMap extract_recipe

/-- The while-loop of scrape_recipes; fuel bounds the number of iterations
observed, since the Python loop can run forever on a link cycle.  Returns the
accumulated records and the list of locations passed to fetch_url, in order.
The loop guard `if next_page and next_page != current_url` requires the next
location to be truthy (nonempty) and different from the current one. -/
def scrapeLoop (w : World) : Nat → Str → List Recipe → List Recipe × List Str
  | 0, _, acc => (acc, [])
  | fuel+1, current, acc =>
    match fetchPage w current with
    | none => (acc, [current])
    | some soup =>
      let acc2 := acc ++ pageRecipes soup
      match find_next_page soup current with
      | some next =>
        if next ≠ [] ∧ next ≠ current then
          let res := scrapeLoop w fuel next acc2
          (res.1, current :: res.2)
        else (acc2, [current])
      | none => (acc2, [current])

/-- scrape_recipes, lines 128-165, starting from an empty accumulator. -/
def scrape_recipes (w : World) (fuel : Nat) (start_url : Str) : List Recipe :=
  (scrapeLoop w fuel start_url []).1

/-! ### Exception containment model for extract_recipe -/

/-- Fault injection for the try block of extract_recipe: `exc post = some e`
models CPython raising the unexpected exception e while extracting this post;
with no exception the pure body runs to completion. -/
def extractBodyF {ε : Type} (exc : Node → Option ε) (post : Node) :
    Except ε (Option Recipe) :=
  match exc post with
  | some e => Except.error e
  | none => Except.ok (extract_recipe post)

/-- The try/except of extract_recipe, lines 61-96: an exception from the body
is caught, logged, and converted to None. -/
def extractCaughtF {ε : Type} (exc : Node → Option ε) (post : Node) :
    Except ε (Option Recipe) :=
  match extractBodyF exc post with
  | Except.error _ => Except.ok none
  | Except.ok v => Except.ok v

/-- The caller's per-post loop under fault injection, in the exception monad:
an exception escaping extract_recipe would abort the rest of the page. -/
def processPostsF {ε : Type} (exc : Node → Option ε) : List Node → Except ε (List Recipe)
  | [] => Except.ok []
  | p :: rest =>
    match extractCaughtF exc p with
    | Except.error e => Except.error e
    | Except.ok r =>
      match processPostsF exc rest with
      | Except.error e => Except.error e
      | Except.ok rs =>
        Except.ok (match r with | some rec => rec :: rs | none => rs)

/-- A location is absolute when urlsplit finds a scheme on it. -/
def isAbsolute (u : Str) : Bool := !(urlsplit u []).scheme.isEmpty

/-! ### Concrete fixtures used by the witnesses -/

/-- A world in which every request fails. -/
def emptyWorld : World := fun _ _ => none

/-- A start location for the witnesses. -/
def startC : Str := ("http://example.com/recipes").toList

/-- A previously collected record, for the partial-result witness. -/
def recipe0 : Recipe := ⟨[], [], [], [], []⟩

/-- An endpoint that fails twice, then succeeds with content 42. -/
def failTwice : Nat → Option Nat := fun n => if n = 3 then some 42 else none

/-- An endpoint that always fails. -/
def alwaysFail : Nat → Option Nat := fun _ => none

/-- A div with the given class attribute and children. -/
def mkDiv (cls : Str) (children : List Node) : Node :=
  Node.elem divTagC [(classC, cls)] children

/-- A post with the instructions marker missing. -/
def postMissing : Node :=
  Node.elem divTagC [(classC, recipePostC)]
    [mkDiv recipeTitleC [Node.text (("Pale Ale").toList)],
      mkDiv recipeAuthorC [Node.text (("bob").toList)],
      mkDiv recipeDateC [Node.text (("2020-01-01").toList)],
      mkDiv recipeIngrC [Node.text (("hops").toList)]]

/-- A well-formed post: five markers, with padding whitespace and a
whitespace-only ingredient fragment. -/
def postGood : Node :=
  Node.elem divTagC [(classC, recipePostC)]
    [mkDiv recipeTitleC [Node.text (("  Pale Ale ").toList)],
      mkDiv recipeAuthorC [Node.text (("bob").toList)],
      mkDiv recipeDateC [Node.text (("2020-01-01").toList)],
      mkDiv recipeIngrC [Node.text (("hops ").toList), Node.text (("   ").toList),
        Node.text ((" malt ").toList)],
      mkDiv recipeInstrC [Node.text (("boil").toList)]]

/-- A fault oracle raising (exception code 0) exactly on four-child elements,
postMissing's shape. -/
def excOnMissing : Node → Option Nat := fun p =>
  match p with
  | Node.elem _ _ [_, _, _, _] => some 0
  | _ => none

/-- A post whose five markers are present but hold only whitespace or no text
at all. -/
def postEmptyFields : Node :=
  Node.elem divTagC [(classC, recipePostC)]
    [mkDiv recipeTitleC [],
      mkDiv recipeAuthorC [Node.text (("   ").toList)],
      mkDiv recipeDateC [],
      mkDiv recipeIngrC [Node.text (("  ").toList), Node.text (("").toList)],
      mkDiv recipeInstrC []]

/-- A page carrying both a rel="next" link and a class="next-page" link with
different targets. -/
def pageBoth : Node :=
  Node.elem (("body").toList) []
    [Node.elem aTagC [(relC, nextC), (hrefC, ("a.html").toList)] [],
      Node.elem aTagC [(classC, nextPageC), (hrefC, ("b.html").toList)] []]

/-- The current page location used in the locator witnesses. -/
def baseU : Str := ("http://example.com/list/page1").toList

/-- A page whose rel="next" link resolves back to the page itself. -/
def selfPage : Node :=
  Node.elem (("body").toList) []
    [Node.elem aTagC [(relC, nextC), (hrefC, ("page1").toList)] []]

/-- The location selfPage's link points back to. -/
def curU : Str := ("http://example.com/list/page1").toList

/-- A world serving selfPage at its own location. -/
def selfWorld : World := fun u _ => if u = curU then some selfPage else none

/-- The second page's location in the two-page witness world. -/
def page2U : Str := ("http://example.com/list/a.html").toList

/-- A two-page world: pageBoth at the start, an empty body at the page its
rel="next" link resolves to. -/
def twoPageWorld : World := fun u _ =>
  if u = baseU then some pageBoth
  else if u = page2U then some (Node.elem (("body").toList) [] [])
  else none

/-! ### Helper lemmas -/

/-- bs4 stripped_strings is the map-then-filter description of §4.2: strip
each fragment, keep the nonempty ones, in order. -/
theorem filterMap_stripOrNone (l : List Str) :
    l.filterMap stripOrNone = (l.map pystrip).filter (fun s => s ≠ []) := by
  induction l with
  | nil => rfl
  | cons x xs ih => by_cases h : pystrip x = [] <;> simp [stripOrNone, h, ih]

/-- When every fragment strips to nothing, stripped_strings is empty. -/
theorem filterMap_stripOrNone_nil (l : List Str) (h : ∀ s ∈ l, pystrip s = []) :
    l.filterMap stripOrNone = [] := by
  induction l with
  | nil => rfl
  | cons x xs ih =>
    simp only [List.filterMap_cons]
    rw [stripOrNone, if_pos (h x (by simp))]
    exact ih (fun s hs => h s (by simp [hs]))

/-! ### Claim C1 -/

/-- Claim C1: a definitive fetch failure ends the run with exactly the
records accumulated so far; if the very first fetch fails the result is
empty; and in general the accumulated records are an initial part of the
returned list, so no collected record is ever discarded. -/
theorem claim1_fetch_failure_keeps_results (w : World) :
    (∀ fuel current acc, fetchPage w current = none →
      scrapeLoop w (fuel + 1) current acc = (acc, [current])) ∧
    (∀ fuel start, fetchPage w start = none → scrape_recipes w (fuel + 1) start = []) ∧
    (∀ fuel current acc, ∃ rest, (scrapeLoop w fuel current acc).1 = acc ++ rest) := by
  have key : ∀ fuel current acc, fetchPage w current = none →
      scrapeLoop w (fuel + 1) current acc = (acc, [current]) := by
    intro fuel current acc h
    simp [scrapeLoop, h]
  refine ⟨key, ?_, ?_⟩
  · intro fuel start h
    simp [scrape_recipes, key fuel start [] h]
  · intro fuel
    induction fuel with
    | zero => exact fun current acc => ⟨[], by simp [scrapeLoop]⟩
    | succ n ih =>
      intro current acc
      cases hf : fetchPage w current with
      | none => exact ⟨[], by simp [scrapeLoop, hf]⟩
      | some soup =>
        cases hn : find_next_page soup current with
        | none => exact ⟨pageRecipes soup, by simp [scrapeLoop, hf, hn]⟩
        | some next =>
          by_cases hne : next ≠ [] ∧ next ≠ current
          · obtain ⟨r, hr⟩ := ih next (acc ++ pageRecipes soup)
            exact ⟨pageRecipes soup ++ r, by simp [scrapeLoop, hf, hn, hne, hr]⟩
          · exact ⟨pageRecipes soup, by simp [scrapeLoop, hf, hn, hne]⟩

/-- Witness for C1: with an always-failing network, the first fetch fails and
the scrape returns no records, while an accumulator is returned unchanged. -/
theorem claim1_witness :
    fetchPage emptyWorld startC = none ∧
    scrape_recipes emptyWorld 1 startC = [] ∧
    scrapeLoop emptyWorld 4 startC [recipe0] = ([recipe0], [startC]) := by
  have h : fetchPage emptyWorld startC = none := rfl
  exact ⟨h, (claim1_fetch_failure_keeps_results emptyWorld).2.1 0 startC h,
    (claim1_fetch_failure_keeps_results emptyWorld).1 3 startC [recipe0] h⟩

/-! ### Claim C2 -/

/-- Claim C2: fetch_url makes at most 3 attempts; a success on attempt k
returns that content at once with exactly k-1 sleeps of RETRY_DELAY between
the failed attempts and none after the last; and three failures return a
definitive None after exactly 3 attempts and 2 sleeps. -/
theorem claim2_fetch_url_retry_contract {α : Type} (get : Nat → Option α) :
    ((fetch_url get).2.countP isAttemptEv ≤ 3) ∧
    (∀ c, get 1 = some c →
      fetch_url get = (some c, [FetchEv.attempt 1])) ∧
    (∀ c, get 1 = none → get 2 = some c →
      fetch_url get = (some c,
        [FetchEv.attempt 1, FetchEv.sleep RETRY_DELAY, FetchEv.attempt 2])) ∧
    (∀ c, get 1 = none → get 2 = none → get 3 = some c →
      fetch_url get = (some c,
        [FetchEv.attempt 1, FetchEv.sleep RETRY_DELAY, FetchEv.attempt 2,
          FetchEv.sleep RETRY_DELAY, FetchEv.attempt 3])) ∧
    (get 1 = none → get 2 = none → get 3 = none →
      fetch_url get = (none,
        [FetchEv.attempt 1, FetchEv.sleep RETRY_DELAY, FetchEv.attempt 2,
          FetchEv.sleep RETRY_DELAY, FetchEv.attempt 3])) := by
  have hr : List.range' 1 MAX_RETRIES = [1, 2, 3] := rfl
  refine ⟨?_, ?_, ?_, ?_, ?_⟩
  · rcases h1 : get 1 with _ | c1 <;> rcases h2 : get 2 with _ | c2 <;>
      rcases h3 : get 3 with _ | c3 <;>
      simp [fetch_url, hr, fetchGo, h1, h2, h3, MAX_RETRIES, isAttemptEv]
  · intro c h1
    simp [fetch_url, hr, fetchGo, h1]
  · intro c h1 h2
    simp [fetch_url, hr, fetchGo, h1, h2, MAX_RETRIES]
  · intro c h1 h2 h3
    simp [fetch_url, hr, fetchGo, h1, h2, h3, MAX_RETRIES]
  · intro h1 h2 h3
    simp [fetch_url, hr, fetchGo, h1, h2, h3, MAX_RETRIES]

/-- Witness for C2: the fail-twice endpoint yields the success content after
exactly two retry delays, and the always-failing endpoint yields None after
3 attempts. -/
theorem claim2_witness :
    fetch_url failTwice = (some 42,
      [FetchEv.attempt 1, FetchEv.sleep RETRY_DELAY, FetchEv.attempt 2,
        FetchEv.sleep RETRY_DELAY, FetchEv.attempt 3]) ∧
    fetch_url alwaysFail = (none,
      [FetchEv.attempt 1, FetchEv.sleep RETRY_DELAY, FetchEv.attempt 2,
        FetchEv.sleep RETRY_DELAY, FetchEv.attempt 3]) ∧
    ((fetch_url alwaysFail).2.countP isAttemptEv ≤ 3) := by
  refine ⟨(claim2_fetch_url_retry_contract failTwice).2.2.2.1 42 rfl rfl rfl, ?_, ?_⟩
  · exact (claim2_fetch_url_retry_contract alwaysFail).2.2.2.2 rfl rfl rfl
  · exact (claim2_fetch_url_retry_contract alwaysFail).1

/-! ### Claim C3 -/

/-- Claim C3: if any of the five field markers is absent, extract_recipe
yields None (never a partial record), and the caller's loop appends nothing
for such a post while processing its siblings unchanged. -/
theorem claim3_missing_marker_incomplete (post : Node)
    (h : findP (divWithClass recipeTitleC) post = none ∨
      findP (divWithClass recipeAuthorC) post = none ∨
      findP (divWithClass recipeDateC) post = none ∨
      findP (divWithClass recipeIngrC) post = none ∨
      findP (divWithClass recipeInstrC) post = none) :
    extract_recipe post = none ∧
    ∀ pre suf : List Node,
      (pre ++ post :: suf).filterMap extract_recipe =
        pre.filterMap extract_recipe ++ suf.filterMap extract_recipe := by
  have he : extract_recipe post = none := by
    rcases e1 : findP (divWithClass recipeTitleC) post with _ | t <;>
      rcases e2 : findP (divWithClass recipeAuthorC) post with _ | a <;>
      rcases e3 : findP (divWithClass recipeDateC) post with _ | d <;>
      rcases e4 : findP (divWithClass recipeIngrC) post with _ | ing <;>
      rcases e5 : findP (divWithClass recipeInstrC) post with _ | ins <;>
      simp_all [extract_recipe]
  exact ⟨he, fun pre suf => by simp [List.filterMap_append, List.filterMap_cons, he]⟩

/-- Witness for C3: the post missing its instructions marker is incomplete
and contributes nothing to the result sequence. -/
theorem claim3_witness :
    extract_recipe postMissing = none ∧
    ([] ++ postMissing :: []).filterMap extract_recipe = [] := by
  have h5 : findP (divWithClass recipeInstrC) postMissing = none := rfl
  have h := claim3_missing_marker_incomplete postMissing
    (Or.inr (Or.inr (Or.inr (Or.inr h5))))
  exact ⟨h.1, by simpa using h.2 [] []⟩

/-! ### Claim C6 -/

/-- Claim C6: with all five markers present, extraction returns the record
whose list fields are the ordered, whitespace-trimmed, nonempty text
fragments of their blocks (document order, empty or whitespace-only fragments
excluded), and whose text fields are the stripped text of their markers (for
a single-fragment marker, exactly the trimmed fragment). -/
theorem claim6_wellformed_extraction (post t a d ing ins : Node)
    (h1 : findP (divWithClass recipeTitleC) post = some t)
    (h2 : findP (divWithClass recipeAuthorC) post = some a)
    (h3 : findP (divWithClass recipeDateC) post = some d)
    (h4 : findP (divWithClass recipeIngrC) post = some ing)
    (h5 : findP (divWithClass recipeInstrC) post = some ins) :
    extract_recipe post = some
      ⟨getTextStrip t, getTextStrip a, getTextStrip d,
        ((textFragments ing).map pystrip).filter (fun s => s ≠ []),
        ((textFragments ins).map pystrip).filter (fun s => s ≠ [])⟩ ∧
    (∀ s ∈ ((textFragments ing).map pystrip).filter (fun s => s ≠ []), s ≠ []) ∧
    (∀ s ∈ ((textFragments ins).map pystrip).filter (fun s => s ≠ []), s ≠ []) ∧
    (∀ frag, textFragments t = [frag] → getTextStrip t = pystrip frag) := by
  refine ⟨?_, ?_, ?_, ?_⟩
  · simp [extract_recipe, h1, h2, h3, h4, h5, strippedStrings, filterMap_stripOrNone]
  · intro s hs
    simp at hs
    exact hs.2
  · intro s hs
    simp at hs
    exact hs.2
  · intro frag hf
    by_cases h : pystrip frag = [] <;>
      simp [getTextStrip, strippedStrings, hf, stripOrNone, h]

/-- Witness for C6: the well-formed post extracts to trimmed fields, the
whitespace-only fragment excluded and order preserved. -/
theorem claim6_witness :
    extract_recipe postGood = some
      ⟨("Pale Ale").toList, ("bob").toList, ("2020-01-01").toList,
        [("hops").toList, ("malt").toList], [("boil").toList]⟩ := by
  have h := claim6_wellformed_extraction postGood _ _ _ _ _ rfl rfl rfl rfl rfl
  exact h.1.trans (by decide)

/-! ### Claim C8 -/

/-- Claim C8: an unexpected exception during extraction of one post is caught
inside extract_recipe and becomes None for that post only: the caught
extractor never returns an error, a raising post yields None, a quiet post
yields the pure result, and a raising post in the middle of a page leaves the
processing of its siblings unchanged. -/
theorem claim8_exception_containment {ε : Type} (exc : Node → Option ε) :
    (∀ post, ∃ v, extractCaughtF exc post = Except.ok v) ∧
    (∀ post e, exc post = some e →
      extractBodyF exc post = Except.error e ∧
      extractCaughtF exc post = Except.ok none) ∧
    (∀ post, exc post = none →
      extractCaughtF exc post = Except.ok (extract_recipe post)) ∧
    (∀ pre suf post e, exc post = some e →
      ∃ r1 r2, processPostsF exc pre = Except.ok r1 ∧
        processPostsF exc suf = Except.ok r2 ∧
        processPostsF exc (pre ++ post :: suf) = Except.ok (r1 ++ r2)) := by
  have hok : ∀ post, ∃ v, extractCaughtF exc post = Except.ok v := by
    intro post
    cases h : exc post with
    | none => exact ⟨extract_recipe post, by simp [extractCaughtF, extractBodyF, h]⟩
    | some e => exact ⟨none, by simp [extractCaughtF, extractBodyF, h]⟩
  have hlist : ∀ l : List Node, ∃ r, processPostsF exc l = Except.ok r := by
    intro l
    induction l with
    | nil => exact ⟨[], rfl⟩
    | cons p rest ih =>
      obtain ⟨v, hv⟩ := hok p
      obtain ⟨r, hr⟩ := ih
      cases v with
      | none => exact ⟨r, by simp [processPostsF, hv, hr]⟩
      | some rec => exact ⟨rec :: r, by simp [processPostsF, hv, hr]⟩
  have happ : ∀ l1 l2 : List Node, ∀ r1 r2,
      processPostsF exc l1 = Except.ok r1 → processPostsF exc l2 = Except.ok r2 →
      processPostsF exc (l1 ++ l2) = Except.ok (r1 ++ r2) := by
    intro l1
    induction l1 with
    | nil => intro l2 r1 r2 h1 h2; simp [processPostsF] at h1; simp [h1, h2]
    | cons p rest ih =>
      intro l2 r1 r2 h1 h2
      obtain ⟨v, hv⟩ := hok p
      obtain ⟨r, hr⟩ := hlist rest
      rw [processPostsF, hv, hr] at h1
      cases v with
      | none =>
        simp at h1
        simp [processPostsF, hv, ih l2 r r2 hr h2, h1]
      | some rec =>
        simp at h1
        simp [processPostsF, hv, ih l2 r r2 hr h2, ← h1]
  refine ⟨hok, ?_, ?_, ?_⟩
  · intro post e h
    exact ⟨by simp [extractBodyF, h], by simp [extractCaughtF, extractBodyF, h]⟩
  · intro post h
    simp [extractCaughtF, extractBodyF, h]
  · intro pre suf post e h
    obtain ⟨r1, hr1⟩ := hlist pre
    obtain ⟨r2, hr2⟩ := hlist suf
    refine ⟨r1, r2, hr1, hr2, ?_⟩
    have hpost : processPostsF exc (post :: suf) = Except.ok r2 := by
      simp [processPostsF, extractCaughtF, extractBodyF, h, hr2]
    exact happ pre (post :: suf) r1 r2 hr1 hpost

/-- Witness for C8: a post that raises yields None without an error escaping,
and a page holding it still yields its siblings' records. -/
theorem claim8_witness :
    extractCaughtF excOnMissing postMissing = Except.ok none ∧
    processPostsF excOnMissing [postGood, postMissing] =
      Except.ok [⟨("Pale Ale").toList, ("bob").toList, ("2020-01-01").toList,
        [("hops").toList, ("malt").toList], [("boil").toList]⟩] := by
  have h := claim8_exception_containment excOnMissing
  refine ⟨(h.2.1 postMissing 0 rfl).2, ?_⟩
  obtain ⟨r1, r2, hr1, hr2, hr⟩ := h.2.2.2 [postGood] [] postMissing 0 rfl
  have e1 : processPostsF excOnMissing [postGood] =
      Except.ok [⟨("Pale Ale").toList, ("bob").toList, ("2020-01-01").toList,
        [("hops").toList, ("malt").toList], [("boil").toList]⟩] := by
    have hq := h.2.2.1 postGood rfl
    simp [processPostsF, hq]
    rfl
  rw [e1] at hr1
  have e2 : r2 = [] := by
    have : processPostsF excOnMissing ([] : List Node) = Except.ok [] := rfl
    rw [this] at hr2
    exact (Except.ok.injEq _ _).mp hr2.symm
  have e3 : r1 = [⟨("Pale Ale").toList, ("bob").toList, ("2020-01-01").toList,
      [("hops").toList, ("malt").toList], [("boil").toList]⟩] :=
    ((Except.ok.injEq _ _).mp hr1).symm
  simpa [e3, e2] using hr

/-! ### Claim C9 -/

/-- Claim C9: extraction is deterministic and idempotent: two runs on the
same post node give structurally equal results, both records or both None. -/
theorem claim9_extraction_deterministic (post : Node) :
    (∃ r, extract_recipe post = some r ∧ extract_recipe post = some r) ∨
    (extract_recipe post = none ∧ extract_recipe post = none) := by
  cases h : extract_recipe post with
  | none => exact Or.inr ⟨rfl, rfl⟩
  | some r => exact Or.inl ⟨r, rfl, rfl⟩

/-! ### Claim C10 -/

/-- Claim C10: presence of the five markers is the only condition for a
record: markers whose text fragments all strip to nothing still produce a
record with empty text fields and empty list fields. -/
theorem claim10_empty_fields_still_record (post t a d ing ins : Node)
    (h1 : findP (divWithClass recipeTitleC) post = some t)
    (h2 : findP (divWithClass recipeAuthorC) post = some a)
    (h3 : findP (divWithClass recipeDateC) post = some d)
    (h4 : findP (divWithClass recipeIngrC) post = some ing)
    (h5 : findP (divWithClass recipeInstrC) post = some ins)
    (e1 : ∀ s ∈ textFragments t, pystrip s = [])
    (e2 : ∀ s ∈ textFragments a, pystrip s = [])
    (e3 : ∀ s ∈ textFragments d, pystrip s = [])
    (e4 : ∀ s ∈ textFragments ing, pystrip s = [])
    (e5 : ∀ s ∈ textFragments ins, pystrip s = []) :
    extract_recipe post = some ⟨[], [], [], [], []⟩ := by
  simp [extract_recipe, h1, h2, h3, h4, h5, getTextStrip, strippedStrings,
    filterMap_stripOrNone_nil _ e1, filterMap_stripOrNone_nil _ e2,
    filterMap_stripOrNone_nil _ e3, filterMap_stripOrNone_nil _ e4,
    filterMap_stripOrNone_nil _ e5]

/-- Witness for C10: the all-empty post still extracts to a record. -/
theorem claim10_witness :
    extract_recipe postEmptyFields = some ⟨[], [], [], [], []⟩ :=
  claim10_empty_fields_still_record postEmptyFields _ _ _ _ _ rfl rfl rfl rfl rfl
    (by decide) (by decide) (by decide) (by decide) (by decide)

/-! ### Claim C4 -/

/-- Claim C4: the three heuristics are consulted in a fixed order and the
first that succeeds determines the result: a rel="next" link with nonempty
href decides the answer outright; the class "next-page" link is consulted
only when the first guard failed; the literal-text loop only when both
failed. -/
theorem claim4_next_page_heuristic_order (soup : Node) (base : Str) :
    (∀ link h, findP isNextRelA soup = some link → getAttr link hrefC = some h →
      h ≠ [] → find_next_page soup base = some (urljoin base h)) ∧
    (hrefIfTruthy (findP isNextRelA soup) = none →
      ∀ link h, findP isNextPageClassA soup = some link → getAttr link hrefC = some h →
      h ≠ [] → find_next_page soup base = some (urljoin base h)) ∧
    (hrefIfTruthy (findP isNextRelA soup) = none →
      hrefIfTruthy (findP isNextPageClassA soup) = none →
      find_next_page soup base = nextByText base (findAllP (tagIs aTagC) soup)) := by
  refine ⟨?_, ?_, ?_⟩
  · intro link h hfind hattr hne
    simp [find_next_page, hrefIfTruthy, hfind, hattr, hne]
  · intro h0 link h hfind hattr hne
    simp only [find_next_page, h0]
    simp [hrefIfTruthy, hfind, hattr, hne]
  · intro h0 h1
    simp only [find_next_page, h0, h1]

/-- Witness for C4: on the two-link page the rel="next" target wins, and it
differs from the class-marker target. -/
theorem claim4_witness :
    find_next_page pageBoth baseU = some (("http://example.com/list/a.html").toList) ∧
    urljoin baseU (("b.html").toList) = ("http://example.com/list/b.html").toList ∧
    ("http://example.com/list/a.html").toList ≠ ("http://example.com/list/b.html").toList := by
  have h := (claim4_next_page_heuristic_order pageBoth baseU).1 _ _ rfl rfl (by decide)
  exact ⟨h.trans (by decide), by decide, by decide⟩

/-! ### Claim C5 -/

/-- Counterexample for C5: when the located target is identical to the
current location, find_next_page returns that target, not None; the None is
introduced only by the driver's guard. -/
theorem claim5_counterexample :
    find_next_page selfPage curU = some curU ∧ some curU ≠ (none : Option Str) :=
  ⟨by decide, by decide⟩

/-- Claim C5 (amended): when the located target equals the current location
(literal string comparison), the locator returns that target and the driver's
guard `next_page != current_url` fails, so the driver transitions to DONE:
the page's records are kept and no further page is fetched. -/
theorem claim5_guard_terminates (w : World) (fuel : Nat) (current : Str)
    (acc : List Recipe) (soup : Node) (hf : fetchPage w current = some soup)
    (hn : find_next_page soup current = some current) :
    scrapeLoop w (fuel + 1) current acc = (acc ++ pageRecipes soup, [current]) := by
  simp [scrapeLoop, hf, hn]

/-- Witness for C5 (amended): the run on the self-linking page ends after one
fetch with that page's records. -/
theorem claim5_witness :
    scrapeLoop selfWorld 5 curU [] = (pageRecipes selfPage, [curU]) := by
  have hf : fetchPage selfWorld curU = some selfPage := rfl
  have hn : find_next_page selfPage curU = some curU := by decide
  simpa using claim5_guard_terminates selfWorld 4 curU [] selfPage hf hn

/-! ### Absoluteness of urljoin results: character-level lemmas -/

/-- Char.ofNat recovers a valid code point. -/
theorem charToNatOfNat (n : Nat) (h : n < 55296) : (Char.ofNat n).toNat = n := by
  rw [Char.ofNat, dif_pos (Or.inl h)]
  rfl

/-- Characters with equal code points are equal. -/
theorem charEqOfToNatEq (a b : Char) (h : a.toNat = b.toNat) : a = b := by
  rw [← Char.ofNat_toNat a, ← Char.ofNat_toNat b, h]

/-- Char.toLower either fixes its argument or shifts an uppercase ASCII
letter down by 32. -/
theorem toLowerCases (a : Char) :
    (a.toLower = a) ∨ (65 ≤ a.toNat ∧ a.toNat ≤ 90 ∧ (a.toLower).toNat = a.toNat + 32) := by
  unfold Char.toLower
  by_cases h : 65 ≤ a.toNat ∧ a.toNat ≤ 90
  · refine Or.inr ⟨h.1, h.2, ?_⟩
    simp only [ge_iff_le, h, and_self, if_true]
    exact charToNatOfNat (a.toNat + 32) (by omega)
  · exact Or.inl (if_neg h)

/-- A character lowercasing to a code point below 97 is that character. -/
theorem toLowerEqLow (a t : Char) (h : a.toLower = t) (ht : t.toNat < 97) : a = t := by
  rcases toLowerCases a with h1 | ⟨h1, h2, h3⟩
  · exact h1.symm.trans h
  · exfalso
    rw [h] at h3
    omega

/-- A character lowercasing to the ASCII letter t is t itself or its
uppercase counterpart u. -/
theorem toLowerEqLetter (a t u : Char) (h : a.toLower = t)
    (hu : u.toNat + 32 = t.toNat) : a = t ∨ a = u := by
  rcases toLowerCases a with h1 | ⟨h1, h2, h3⟩
  · exact Or.inl (h1.symm.trans h)
  · rw [h] at h3
    exact Or.inr (charEqOfToNatEq a u (by omega))

/-- The character facts needed of any character that lowercases to a concrete
scheme letter t with uppercase form u. -/
theorem schemeLetterFacts (a t u : Char) (h : a.toLower = t)
    (hu : u.toNat + 32 = t.toNat)
    (hft : isSchemeChar t = true ∧ isAsciiAlphaCh t = true ∧ isC0Space t = false ∧
      isUnsafeUrlByte t = false ∧ t ≠ ':')
    (hfu : isSchemeChar u = true ∧ isAsciiAlphaCh u = true ∧ isC0Space u = false ∧
      isUnsafeUrlByte u = false ∧ u ≠ ':') :
    isSchemeChar a = true ∧ isAsciiAlphaCh a = true ∧ isC0Space a = false ∧
      isUnsafeUrlByte a = false ∧ a ≠ ':' := by
  rcases toLowerEqLetter a t u h hu with rfl | rfl
  · exact hft
  · exact hfu

/-! ### Absoluteness of urljoin results: scheme extraction -/

/-- splitOnce finds the first separator occurrence. -/
theorem splitOnceAppendCons (c : Char) (s rest : Str) (h : c ∉ s) :
    splitOnce c (s ++ c :: rest) = some (s, rest) := by
  induction s with
  | nil => simp [splitOnce]
  | cons x xs ih =>
    have hx : x ≠ c := fun e => h (by simp [e])
    have ih2 := ih (fun hc => h (by simp [hc]))
    show splitOnce c (x :: (xs ++ c :: rest)) = some (x :: xs, rest)
    simp only [splitOnce, if_neg hx]
    rw [ih2]

/-- Sanitization leaves a clean scheme prefix intact and only filters the
remainder. -/
theorem sanitizeUrlSchemePrefix (s rest : Str) (hne : s ≠ [])
    (hC0 : isC0Space (s.headD '0') = false)
    (hok : ∀ c ∈ s, isUnsafeUrlByte c = false) :
    sanitizeUrl (s ++ ':' :: rest) =
      s ++ ':' :: rest.filter (fun c => !isUnsafeUrlByte c) := by
  cases s with
  | nil => exact absurd rfl hne
  | cons x xs =>
    unfold sanitizeUrl
    have hx0 : isC0Space x = false := by simpa using hC0
    rw [List.cons_append, List.dropWhile_cons]
    rw [if_neg (by simp [hx0])]
    rw [show x :: (xs ++ ':' :: rest) = (x :: xs) ++ ':' :: rest from rfl]
    rw [List.filter_append]
    rw [List.filter_eq_self.mpr (by intro a ha; simp [hok a ha])]
    rw [List.filter_cons_of_pos (by decide)]

/-- parseScheme accepts a valid scheme prefix and lowercases it. -/
theorem parseSchemeOfPrefix (s rest d : Str) (hne : s ≠ [])
    (hhead : isAsciiAlphaCh (s.headD '0') = true)
    (hall : ∀ c ∈ s, isSchemeChar c = true) (hnc : ':' ∉ s) :
    parseScheme (s ++ ':' :: rest) d = (lowerStr s, rest) := by
  have hnc2 : ':' ∉ s := hnc
  simp only [parseScheme, splitOnceAppendCons ':' s rest hnc2]
  rw [if_pos ⟨hne, hhead, by simpa [List.all_eq_true] using hall⟩]

/-- urlsplit on a string with a valid scheme prefix extracts that scheme,
lowercased, regardless of the default. -/
theorem urlsplitSchemeOfPrefix (s rest d : Str) (hne : s ≠ [])
    (hhead : isAsciiAlphaCh (s.headD '0') = true)
    (hall : ∀ c ∈ s, isSchemeChar c = true) (hnc : ':' ∉ s)
    (hC0 : isC0Space (s.headD '0') = false)
    (hok : ∀ c ∈ s, isUnsafeUrlByte c = false) :
    (urlsplit (s ++ ':' :: rest) d).scheme = lowerStr s := by
  have e1 : (urlsplit (s ++ ':' :: rest) d).scheme =
      (parseScheme (sanitizeUrl (s ++ ':' :: rest)) (sanitizeSchemeArg d)).1 := rfl
  rw [e1, sanitizeUrlSchemePrefix s rest hne hC0 hok,
    parseSchemeOfPrefix s _ _ hne hhead hall hnc]

/-- A string with a valid scheme prefix is absolute. -/
theorem isAbsoluteOfPrefix (s rest : Str) (hne : s ≠ [])
    (hhead : isAsciiAlphaCh (s.headD '0') = true)
    (hall : ∀ c ∈ s, isSchemeChar c = true) (hnc : ':' ∉ s)
    (hC0 : isC0Space (s.headD '0') = false)
    (hok : ∀ c ∈ s, isUnsafeUrlByte c = false) :
    isAbsolute (s ++ ':' :: rest) = true := by
  have h := urlsplitSchemeOfPrefix s rest [] hne hhead hall hnc hC0 hok
  simp [isAbsolute, h, lowerStr, hne]

/-- The scheme component of urlsplit is either the (sanitized) default or a
nonempty scheme found in the url itself, independently of the default. -/
theorem urlsplitSchemeCases (u d : Str) :
    (urlsplit u d).scheme = sanitizeSchemeArg d ∨
    ((urlsplit u d).scheme ≠ [] ∧ (urlsplit u []).scheme = (urlsplit u d).scheme) := by
  have e1 : (urlsplit u d).scheme = (parseScheme (sanitizeUrl u) (sanitizeSchemeArg d)).1 := rfl
  have e2 : (urlsplit u []).scheme = (parseScheme (sanitizeUrl u) (sanitizeSchemeArg [])).1 := rfl
  have e3 : sanitizeSchemeArg ([] : Str) = [] := rfl
  rw [e1, e2, e3]
  unfold parseScheme
  cases hsp : splitOnce ':' (sanitizeUrl u) with
  | none => exact Or.inl rfl
  | some p =>
    by_cases hg : p.1 ≠ [] ∧ isAsciiAlphaCh (p.1.headD '0') = true ∧
        p.1.all isSchemeChar = true
    · refine Or.inr ⟨?_, ?_⟩
      · simp only [if_pos hg]
        simpa [lowerStr] using hg.1
      · simp only [if_pos hg]
    · left
      simp only [if_neg hg]

/-- The params split does not touch the scheme. -/
theorem urlparseScheme (url d : Str) : (urlparse url d).scheme = (urlsplit url d).scheme := by
  unfold urlparse
  simp [apply_ite ParseResult.scheme]

/-- With a nonempty scheme, urlunsplit produces scheme, colon, remainder. -/
theorem urlunsplitShape (scheme netloc path query frag : Str) (h : scheme ≠ []) :
    ∃ t, urlunsplit scheme netloc path query frag = scheme ++ ':' :: t := by
  unfold urlunsplit
  simp only [if_pos h]
  rcases eq_or_ne frag [] with hf | hf
  · rw [if_neg (by simp [hf])]
    rcases eq_or_ne query [] with hq | hq
    · rw [if_neg (by simp [hq])]
      exact ⟨_, rfl⟩
    · rw [if_pos hq]
      apply Exists.intro
      rw [List.append_assoc, List.cons_append]
  · rw [if_pos hf]
    rcases eq_or_ne query [] with hq | hq
    · rw [if_neg (by simp [hq])]
      apply Exists.intro
      rw [List.append_assoc, List.cons_append]
    · rw [if_pos hq]
      apply Exists.intro
      rw [List.append_assoc, List.append_assoc, List.cons_append, List.cons_append]

/-- With a nonempty scheme, urlunparse produces scheme, colon, remainder. -/
theorem urlunparseShape (p : ParseResult) (h : p.scheme ≠ []) :
    ∃ t, urlunparse p = p.scheme ++ ':' :: t := by
  unfold urlunparse
  exact urlunsplitShape _ _ _ _ _ h

/-- An unparse whose scheme is http or https yields an absolute location. -/
theorem urlunparseIsAbsoluteHttp (p : ParseResult)
    (h : p.scheme = ("http").toList ∨ p.scheme = ("https").toList) :
    isAbsolute (urlunparse p) = true := by
  have hne : p.scheme ≠ [] := by rcases h with h | h <;> simp [h]
  obtain ⟨t, ht⟩ := urlunparseShape p hne
  rw [ht]
  rcases h with h | h <;> rw [h] <;>
    exact isAbsoluteOfPrefix _ _ (by decide) (by decide) (by decide) (by decide)
      (by decide) (by decide)

/-- A location accepted by requests' adapters decomposes into a valid scheme
prefix lowercasing to http or https, a colon, and a remainder. -/
theorem isHttpDecompose (base : Str) (hb : isHttpUrl base = true) :
    ∃ s rest, base = s ++ ':' :: rest ∧ s ≠ [] ∧
      isAsciiAlphaCh (s.headD '0') = true ∧ (∀ c ∈ s, isSchemeChar c = true) ∧
      (':' ∉ s) ∧ isC0Space (s.headD '0') = false ∧
      (∀ c ∈ s, isUnsafeUrlByte c = false) ∧
      (lowerStr s = ("http").toList ∨ lowerStr s = ("https").toList) := by
  rw [isHttpUrl, Bool.or_eq_true, beq_iff_eq, beq_iff_eq] at hb
  rcases hb with hb | hb
  · rw [lowerStr, ← List.map_take,
      show ("http://").toList = ['h', 't', 't', 'p', ':', '/', '/'] from rfl] at hb
    rcases base with _ | ⟨a, _ | ⟨b, _ | ⟨c, _ | ⟨d, _ | ⟨e, _ | ⟨f, _ | ⟨g, rest⟩⟩⟩⟩⟩⟩⟩ <;>
      simp only [List.take, List.map, List.cons.injEq, List.ne_cons_self,
        List.cons_ne_nil, List.nil_eq, and_false, false_and, and_true] at hb
    obtain ⟨ha, hb2, hc2, hd2, he2, hf2, hg2⟩ : a.toLower = 'h' ∧ b.toLower = 't' ∧
        c.toLower = 't' ∧ d.toLower = 'p' ∧ e.toLower = ':' ∧ f.toLower = '/' ∧
        g.toLower = '/' := by simpa using hb
    obtain rfl : e = ':' := toLowerEqLow e ':' he2 (by decide)
    obtain rfl : f = '/' := toLowerEqLow f '/' hf2 (by decide)
    obtain rfl : g = '/' := toLowerEqLow g '/' hg2 (by decide)
    have fa := schemeLetterFacts a 'h' 'H' ha (by decide) (by decide) (by decide)
    have fb := schemeLetterFacts b 't' 'T' hb2 (by decide) (by decide) (by decide)
    have fc := schemeLetterFacts c 't' 'T' hc2 (by decide) (by decide) (by decide)
    have fd := schemeLetterFacts d 'p' 'P' hd2 (by decide) (by decide) (by decide)
    refine ⟨[a, b, c, d], '/' :: '/' :: rest, by simp, by simp, ?_, ?_, ?_, ?_, ?_, ?_⟩
    · simpa using fa.2.1
    · intro x hx
      rcases List.mem_cons.mp hx with rfl | hx
      · exact fa.1
      rcases List.mem_cons.mp hx with rfl | hx
      · exact fb.1
      rcases List.mem_cons.mp hx with rfl | hx
      · exact fc.1
      rcases List.mem_cons.mp hx with rfl | hx
      · exact fd.1
      · exact absurd hx (List.not_mem_nil x)
    · intro hx
      rcases List.mem_cons.mp hx with he | hx
      · exact fa.2.2.2.2 he.symm
      rcases List.mem_cons.mp hx with he | hx
      · exact fb.2.2.2.2 he.symm
      rcases List.mem_cons.mp hx with he | hx
      · exact fc.2.2.2.2 he.symm
      rcases List.mem_cons.mp hx with he | hx
      · exact fd.2.2.2.2 he.symm
      · exact absurd hx (List.not_mem_nil ':')
    · simpa using fa.2.2.1
    · intro x hx
      rcases List.mem_cons.mp hx with rfl | hx
      · exact fa.2.2.2.1
      rcases List.mem_cons.mp hx with rfl | hx
      · exact fb.2.2.2.1
      rcases List.mem_cons.mp hx with rfl | hx
      · exact fc.2.2.2.1
      rcases List.mem_cons.mp hx with rfl | hx
      · exact fd.2.2.2.1
      · exact absurd hx (List.not_mem_nil x)
    · left
      simp [lowerStr, ha, hb2, hc2, hd2]
  · rw [lowerStr, ← List.map_take,
      show ("https://").toList = ['h', 't', 't', 'p', 's', ':', '/', '/'] from rfl] at hb
    rcases base with _ | ⟨a, _ | ⟨b, _ | ⟨c, _ | ⟨d, _ | ⟨d2, _ | ⟨e, _ | ⟨f, _ | ⟨g, rest⟩⟩⟩⟩⟩⟩⟩⟩ <;>
      simp only [List.take, List.map, List.cons.injEq, List.ne_cons_self,
        List.cons_ne_nil, List.nil_eq, and_false, false_and, and_true] at hb
    obtain ⟨ha, hb2, hc2, hd2b, hs2, he2, hf2, hg2⟩ : a.toLower = 'h' ∧ b.toLower = 't' ∧
        c.toLower = 't' ∧ d.toLower = 'p' ∧ d2.toLower = 's' ∧ e.toLower = ':' ∧
        f.toLower = '/' ∧ g.toLower = '/' := by simpa using hb
    obtain rfl : e = ':' := toLowerEqLow e ':' he2 (by decide)
    obtain rfl : f = '/' := toLowerEqLow f '/' hf2 (by decide)
    obtain rfl : g = '/' := toLowerEqLow g '/' hg2 (by decide)
    have fa := schemeLetterFacts a 'h' 'H' ha (by decide) (by decide) (by decide)
    have fb := schemeLetterFacts b 't' 'T' hb2 (by decide) (by decide) (by decide)
    have fc := schemeLetterFacts c 't' 'T' hc2 (by decide) (by decide) (by decide)
    have fd := schemeLetterFacts d 'p' 'P' hd2b (by decide) (by decide) (by decide)
    have fs := schemeLetterFacts d2 's' 'S' hs2 (by decide) (by decide) (by decide)
    refine ⟨[a, b, c, d, d2], '/' :: '/' :: rest, by simp, by simp, ?_, ?_, ?_, ?_, ?_, ?_⟩
    · simpa using fa.2.1
    · intro x hx
      rcases List.mem_cons.mp hx with rfl | hx
      · exact fa.1
      rcases List.mem_cons.mp hx with rfl | hx
      · exact fb.1
      rcases List.mem_cons.mp hx with rfl | hx
      · exact fc.1
      rcases List.mem_cons.mp hx with rfl | hx
      · exact fd.1
      rcases List.mem_cons.mp hx with rfl | hx
      · exact fs.1
      · exact absurd hx (List.not_mem_nil x)
    · intro hx
      rcases List.mem_cons.mp hx with he | hx
      · exact fa.2.2.2.2 he.symm
      rcases List.mem_cons.mp hx with he | hx
      · exact fb.2.2.2.2 he.symm
      rcases List.mem_cons.mp hx with he | hx
      · exact fc.2.2.2.2 he.symm
      rcases List.mem_cons.mp hx with he | hx
      · exact fd.2.2.2.2 he.symm
      rcases List.mem_cons.mp hx with he | hx
      · exact fs.2.2.2.2 he.symm
      · exact absurd hx (List.not_mem_nil ':')
    · simpa using fa.2.2.1
    · intro x hx
      rcases List.mem_cons.mp hx with rfl | hx
      · exact fa.2.2.2.1
      rcases List.mem_cons.mp hx with rfl | hx
      · exact fb.2.2.2.1
      rcases List.mem_cons.mp hx with rfl | hx
      · exact fc.2.2.2.1
      rcases List.mem_cons.mp hx with rfl | hx
      · exact fd.2.2.2.1
      rcases List.mem_cons.mp hx with rfl | hx
      · exact fs.2.2.2.1
      · exact absurd hx (List.not_mem_nil x)
    · right
      simp [lowerStr, ha, hb2, hc2, hd2b, hs2]

/-- An http(s) location is itself absolute. -/
theorem isAbsoluteOfIsHttp (u : Str) (h : isHttpUrl u = true) : isAbsolute u = true := by
  obtain ⟨s, rest, rfl, h1, h2, h3, h4, h5, h6, _⟩ := isHttpDecompose u h
  exact isAbsoluteOfPrefix s rest h1 h2 h3 h4 h5 h6

/-- The parsed scheme of an http(s) location is the literal http or https. -/
theorem urlparseSchemeOfIsHttp (base : Str) (hb : isHttpUrl base = true) :
    (urlparse base []).scheme = ("http").toList ∨
      (urlparse base []).scheme = ("https").toList := by
  obtain ⟨s, rest, rfl, h1, h2, h3, h4, h5, h6, h7⟩ := isHttpDecompose base hb
  rw [urlparseScheme, urlsplitSchemeOfPrefix s rest [] h1 h2 h3 h4 h5 h6]
  exact h7

/-- A nonempty parsed scheme makes a location absolute. -/
theorem isAbsoluteOfSchemeNe (u : Str) (h : (urlsplit u []).scheme ≠ []) :
    isAbsolute u = true := by
  simp [isAbsolute, h]

/-- With an http(s) base, the body of urljoin yields an absolute location in
every branch. -/
theorem urljoinCoreIsAbsolute (base url : Str) (hb : isHttpUrl base = true) :
    isAbsolute (urljoinCore (urlparse base []) (urlparse url (urlparse base []).scheme) url)
      = true := by
  have hscheme := urlparseSchemeOfIsHttp base hb
  generalize hB : urlparse base [] = b at hscheme ⊢
  have hre : (urlparse url b.scheme).scheme = (urlsplit url b.scheme).scheme :=
    urlparseScheme url b.scheme
  generalize hR : urlparse url b.scheme = r at hre ⊢
  unfold urljoinCore
  by_cases hc : r.scheme ≠ b.scheme ∨ ¬(usesRelative.contains r.scheme = true)
  · rw [if_pos hc]
    have hne : r.scheme ≠ b.scheme := by
      rcases hc with hc | hc
      · exact hc
      · intro he
        apply hc
        rw [he]
        rcases hscheme with hs | hs <;> rw [hs] <;> decide
    rcases urlsplitSchemeCases url b.scheme with h | ⟨h1, h2⟩
    · exfalso
      apply hne
      rw [hre, h]
      rcases hscheme with hs | hs <;> rw [hs] <;> decide
    · apply isAbsoluteOfSchemeNe
      rw [h2]
      exact h1
  · rw [if_neg hc]
    push_neg at hc
    have hsch : r.scheme = ("http").toList ∨ r.scheme = ("https").toList := by
      rw [hc.1]
      exact hscheme
    by_cases h2 : usesNetloc.contains r.scheme = true ∧ r.netloc ≠ []
    · rw [if_pos h2]
      exact urlunparseIsAbsoluteHttp _ (by simpa using hsch)
    · rw [if_neg h2]
      by_cases h3 : r.path = [] ∧ r.params = []
      · rw [if_pos h3]
        exact urlunparseIsAbsoluteHttp _ (by simpa using hsch)
      · rw [if_neg h3]
        exact urlunparseIsAbsoluteHttp _ (by simpa using hsch)

/-- urljoin from an http(s) base always produces an absolute location. -/
theorem urljoinIsAbsolute (base url : Str) (hb : isHttpUrl base = true) :
    isAbsolute (urljoin base url) = true := by
  have hbne : ¬(base = []) := by
    obtain ⟨s, rest, rfl, h1, -⟩ := isHttpDecompose base hb
    simp
  rcases eq_or_ne url [] with rfl | hu
  · rw [urljoin, if_neg hbne, if_pos rfl]
    exact isAbsoluteOfIsHttp base hb
  · rw [urljoin, if_neg hbne, if_neg hu]
    exact urljoinCoreIsAbsolute base url hb

/-- A truthy href coming out of the guard is nonempty. -/
theorem hrefIfTruthyNe (l : Option Node) (v : Str) (h : hrefIfTruthy l = some v) :
    v ≠ [] := by
  cases l with
  | none => simp [hrefIfTruthy] at h
  | some n =>
    cases ha : getAttr n hrefC with
    | none => simp [hrefIfTruthy, ha] at h
    | some w =>
      by_cases hw : w = []
      · simp [hrefIfTruthy, ha, hw] at h
      · simp [hrefIfTruthy, ha, hw] at h
        exact h ▸ hw

/-- Every location produced by the literal-text loop is a urljoin resolution
of a nonempty href. -/
theorem nextByTextResolves (base r : Str) (l : List Node)
    (h : nextByText base l = some r) : ∃ href, href ≠ [] ∧ r = urljoin base href := by
  induction l with
  | nil => simp [nextByText] at h
  | cons a rest ih =>
    rw [nextByText] at h
    by_cases hc : lowerStr (getTextStrip a) = nextC ∨ lowerStr (getTextStrip a) = moreC
    · rw [if_pos hc] at h
      cases hg : getAttr a hrefC with
      | none =>
        simp only [hg] at h
        exact ih h
      | some v =>
        simp only [hg] at h
        by_cases hv : v ≠ []
        · rw [if_pos hv] at h
          exact ⟨v, hv, (Option.some.injEq _ _).mp h |>.symm⟩
        · rw [if_neg hv] at h
          exact ih h
    · rw [if_neg hc] at h
      exact ih h

/-- Every location find_next_page returns is a urljoin resolution of a
nonempty candidate href against the current page's location. -/
theorem findNextPageResolves (soup : Node) (base r : Str)
    (h : find_next_page soup base = some r) : ∃ href, href ≠ [] ∧ r = urljoin base href := by
  rw [find_next_page] at h
  cases h1 : hrefIfTruthy (findP isNextRelA soup) with
  | some v =>
    rw [h1] at h
    exact ⟨v, hrefIfTruthyNe _ v h1, ((Option.some.injEq _ _).mp h).symm⟩
  | none =>
    rw [h1] at h
    cases h2 : hrefIfTruthy (findP isNextPageClassA soup) with
    | some v =>
      rw [h2] at h
      exact ⟨v, hrefIfTruthyNe _ v h2, ((Option.some.injEq _ _).mp h).symm⟩
    | none =>
      rw [h2] at h
      exact nextByTextResolves base r _ h

/-- When every attempt fails, the retry loop reports failure. -/
theorem fetchGoAllNone {α : Type} (get : Nat → Option α) (l : List Nat)
    (h : ∀ n, get n = none) : (fetchGo get l).1 = none := by
  induction l with
  | nil => rfl
  | cons a rest ih =>
    rw [fetchGo, h a]
    by_cases ha : a < MAX_RETRIES
    · rw [if_pos ha]
      exact ih
    · rw [if_neg ha]

/-- A successful fetch implies the location had an http(s) prefix: requests'
adapters reject every other scheme. -/
theorem fetchPageSomeIsHttp (w : World) (url : Str) (soup : Node)
    (h : fetchPage w url = some soup) : isHttpUrl url = true := by
  by_contra hn
  have hn2 : isHttpUrl url = false := by
    cases hh : isHttpUrl url
    · rfl
    · exact absurd hh hn
  have hg : ∀ n, sessionGet w url n = none := by
    intro n
    simp [sessionGet, hn2]
  have hnone : fetchPage w url = none := by
    unfold fetchPage fetch_url
    exact fetchGoAllNone _ _ hg
  rw [hnone] at h
  exact Option.noConfusion h

/-- With fuel left, the first location the loop fetches is the current one. -/
theorem scrapeLoopTraceCons (w : World) (fuel : Nat) (current : Str) (acc : List Recipe) :
    ∃ t, (scrapeLoop w (fuel + 1) current acc).2 = current :: t := by
  cases hf : fetchPage w current with
  | none => exact ⟨[], by simp [scrapeLoop, hf]⟩
  | some soup =>
    cases hn : find_next_page soup current with
    | none => exact ⟨[], by simp [scrapeLoop, hf, hn]⟩
    | some next =>
      by_cases hne : next ≠ [] ∧ next ≠ current
      · exact ⟨(scrapeLoop w fuel next (acc ++ pageRecipes soup)).2,
          by simp [scrapeLoop, hf, hn, hne]⟩
      · exact ⟨[], by simp [scrapeLoop, hf, hn, hne]⟩

/-- Every location the loop fetches after its entry location is absolute: it
was produced by urljoin against a page whose own fetch succeeded, hence
against an http(s) location. -/
theorem scrapeLoopTraceAbsolute (w : World) :
    ∀ fuel current acc u, u ∈ ((scrapeLoop w fuel current acc).2.drop 1) →
      isAbsolute u = true := by
  intro fuel
  induction fuel with
  | zero =>
    intro current acc u hu
    simp [scrapeLoop] at hu
  | succ n ih =>
    intro current acc u hu
    cases hf : fetchPage w current with
    | none =>
      rw [show (scrapeLoop w (n + 1) current acc).2 = [current] from
        by simp [scrapeLoop, hf]] at hu
      simp at hu
    | some soup =>
      cases hn : find_next_page soup current with
      | none =>
        rw [show (scrapeLoop w (n + 1) current acc).2 = [current] from
          by simp [scrapeLoop, hf, hn]] at hu
        simp at hu
      | some next =>
        by_cases hne : next ≠ [] ∧ next ≠ current
        · rw [show (scrapeLoop w (n + 1) current acc).2 =
              current :: (scrapeLoop w n next (acc ++ pageRecipes soup)).2 from
            by simp [scrapeLoop, hf, hn, hne]] at hu
          simp only [List.drop_succ_cons, List.drop_zero] at hu
          have habsNext : isAbsolute next = true := by
            obtain ⟨href, hh, rfl⟩ := findNextPageResolves soup current next hn
            exact urljoinIsAbsolute current href (fetchPageSomeIsHttp w current soup hf)
          cases n with
          | zero => simp [scrapeLoop] at hu
          | succ m =>
            obtain ⟨t2, ht2⟩ := scrapeLoopTraceCons w m next (acc ++ pageRecipes soup)
            rw [ht2] at hu
            rcases List.mem_cons.mp hu with rfl | hu2
            · exact habsNext
            · apply ih next (acc ++ pageRecipes soup) u
              rw [ht2]
              simpa using hu2
        · rw [show (scrapeLoop w (n + 1) current acc).2 = [current] from
            by simp [scrapeLoop, hf, hn, hne]] at hu
          simp at hu

/-! ### Claim C7 -/

/-- Claim C7: every location returned by find_next_page is the urljoin
resolution of a nonempty candidate href against the current page's location,
and every location the pagination driver passes to the Fetcher after the
caller-supplied start location is an absolute URL. -/
theorem claim7_locations_absolute (w : World) :
    (∀ soup base r, find_next_page soup base = some r →
      ∃ href, href ≠ [] ∧ r = urljoin base href) ∧
    (∀ fuel start u, u ∈ ((scrapeLoop w fuel start []).2.drop 1) →
      isAbsolute u = true) :=
  ⟨fun soup base r h => findNextPageResolves soup base r h,
    fun fuel start u hu => scrapeLoopTraceAbsolute w fuel start [] u hu⟩

/-- Witness for C7: in the two-page world the driver fetches the resolved
second location after the start, and it is absolute; the locator's result on
the first page is a urljoin resolution. -/
theorem claim7_witness :
    isAbsolute page2U = true ∧
    (∃ href, href ≠ [] ∧ page2U = urljoin baseU href) := by
  have hm : page2U ∈ ((scrapeLoop twoPageWorld 3 baseU []).2.drop 1) := by
    rw [show (scrapeLoop twoPageWorld 3 baseU []).2 = [baseU, page2U] from by decide]
    simp
  refine ⟨(claim7_locations_absolute twoPageWorld).2 3 baseU page2U hm, ?_⟩
  exact (claim7_locations_absolute twoPageWorld).1 pageBoth baseU page2U (by decide)

end BeerScraper
